import Mathlib

/-!
Verification development for the Vercel signalling relay
(`vercel-app/api/index.js`, reproduced in the repository README) and its
browser client (`vercel-app/public/script.js`).

Server side: the Express app keeps two in-memory objects,
`rooms : roomId → array of peerIds` and `messageQueues : peerId → array of
messages`.  We embed both as functions `String → Option _` (absence of a key
in the JS object is `none`).  Each HTTP handler becomes a Lean function
returning `Except String _`, mirroring the 400-error branches of the code.

Client side: `script.js` keeps `localStream`, `screenStream`, `currentStream`,
a `peers` map from remote peer id to `RTCPeerConnection`, and a screen-share
button label.  We embed media tracks as natural-number identifiers, a stream
as its list of tracks, and a connection as the list of outgoing track ids
attached to it together with the list of ICE candidates added so far.
Stopped tracks are recorded in a `stopped` list (in the browser, stopping is
a mutation of the track object itself).
-/

/-- One queued signalling message, as stored by the server: `{type, from,
data}`.  Server-originated notifications (`peer-connected`,
`peer-disconnected`) carry no `data` field, which we model as `none`; the
relay never inspects `data`, so an opaque `Option String` stands in for an
arbitrary JSON payload. -/
structure SignalingMessage where
  type : String
  fromId : String
  data : Option String
deriving DecidableEq, Repr

/-- The server's whole mutable state: the `rooms` object (room id to member
sequence) and the `messageQueues` object (peer id to pending messages).
A key absent from the JS object is `none`. -/
structure ServerState where
  rooms : String → Option (List String)
  queues : String → Option (List SignalingMessage)

/-- The state of a freshly started server container: both objects empty. -/
def initialState : ServerState :=
  { rooms := fun _ => none, queues := fun _ => none }

/-- Point update of a string-keyed object (JS `obj[k] = v`). -/
def upd {α : Type} (m : String → Option α) (k : String) (v : α) :
    String → Option α :=
  fun k' => if k' = k then some v else m k'

/-- Key removal from a string-keyed object (JS `delete obj[k]`). -/
def del {α : Type} (m : String → Option α) (k : String) :
    String → Option α :=
  fun k' => if k' = k then none else m k'

/-- Function `ensureQueue(peerId)` from `api/index.js`: create an empty queue for
`peerId` if none exists. -/
def ensureQueue (peerId : String) (s : ServerState) : ServerState :=
  match s.queues peerId with
  | none => { s with queues := upd s.queues peerId [] }
  | some _ => s

/-- Composite `ensureQueue(to); messageQueues[to].push(m)` — append `m` to `to`'s
queue, creating the queue first when absent. -/
def enqueue (toId : String) (m : SignalingMessage) (s : ServerState) :
    ServerState :=
  { s with queues := upd s.queues toId (((s.queues toId).getD []) ++ [m]) }

/-- Body of `app.post(/join)` after the field check: create the room if
absent, compute `existingPeers` by filtering out `peerId`, push `peerId`
onto the member sequence, ensure the joiner's queue exists, and push one
`peer-connected` notification into the queue of every entry of
`existingPeers`.  Returns the `existingPeers` array and the new state. -/
def joinOp (roomId peerId : String) (s : ServerState) :
    List String × ServerState :=
  let members := (s.rooms roomId).getD []
  let existingPeers := members.filter (fun p => p != peerId)
  let s1 : ServerState := { s with rooms := upd s.rooms roomId (members ++ [peerId]) }
  let s2 := ensureQueue peerId s1
  let s3 := existingPeers.foldl
    (fun st other => enqueue other ⟨"peer-connected", peerId, none⟩ st) s2
  (existingPeers, s3)

/-- Handler `app.post(/join)`: rejects a missing/empty `roomId` or `peerId`
(JS `!roomId || !peerId`; the empty string is falsy, so an absent field and
an empty field behave alike), otherwise runs `joinOp`. -/
def joinE (roomId peerId : String) (s : ServerState) :
    Except String (List String × ServerState) :=
  if roomId = "" || peerId = "" then .error "Missing roomId or peerId"
  else .ok (joinOp roomId peerId s)

/-- Body of `app.post(/leave)` after the field check: if the room exists,
replace its member sequence by the one with every occurrence of `peerId`
filtered out, push a `peer-disconnected` notification to every remaining
member, and delete the room when the remaining sequence is empty.  In every
case, finally delete `peerId`'s message queue. -/
def leaveOp (roomId peerId : String) (s : ServerState) : ServerState :=
  let s1 :=
    match s.rooms roomId with
    | none => s
    | some ms =>
      let remaining := ms.filter (fun p => p != peerId)
      let sA : ServerState := { s with rooms := upd s.rooms roomId remaining }
      let sB := remaining.foldl
        (fun st other => enqueue other ⟨"peer-disconnected", peerId, none⟩ st) sA
      if remaining.isEmpty then { sB with rooms := del sB.rooms roomId } else sB
  { s1 with queues := del s1.queues peerId }

/-- Handler `app.post(/leave)`: rejects a missing/empty identifier, otherwise runs
`leaveOp` and answers `{status: 'left'}`. -/
def leaveE (roomId peerId : String) (s : ServerState) :
    Except String ServerState :=
  if roomId = "" || peerId = "" then .error "Missing roomId or peerId"
  else .ok (leaveOp roomId peerId s)

/-- Handler `app.post(/send)`: the guard is `!to || !type || from == null`, so a
missing or empty `to`/`type` is rejected, while `from` is rejected only when
the field is absent (`undefined == null`); an explicitly empty `from`
passes.  We therefore keep the three checked fields as `Option String`
(`none` = absent from the JSON body).  On success the message
`{type, data, from}` is appended to `to`'s queue. -/
def sendE (toF ty data fromF : Option String) (s : ServerState) :
    Except String ServerState :=
  match toF, ty, fromF with
  | some t, some y, some f =>
      if t = "" || y = "" then .error "Missing fields"
      else .ok (enqueue t ⟨y, f, data⟩ s)
  | _, _, _ => .error "Missing fields"

/-- Body of `app.get(/poll)` after the field check: ensure the queue
exists, read it, and reset it to the empty array.  Returns the snapshot and
the new state. -/
def pollOp (peerId : String) (s : ServerState) :
    List SignalingMessage × ServerState :=
  let s1 := ensureQueue peerId s
  let messages := (s1.queues peerId).getD []
  (messages, { s1 with queues := upd s1.queues peerId [] })

/-- Handler `app.get(/poll)`: rejects a missing/empty `peerId` query parameter,
otherwise runs `pollOp`. -/
def pollE (peerId : String) (s : ServerState) :
    Except String (List SignalingMessage × ServerState) :=
  if peerId = "" then .error "Missing peerId" else .ok (pollOp peerId s)

/-- A batch of successful `/send` requests, reduced to their effect: each
pair is (target queue, stored message), applied in order. -/
def applyEnqueues (l : List (String × SignalingMessage)) (s : ServerState) :
    ServerState :=
  l.foldl (fun st x => enqueue x.1 x.2 st) s

section BasicLemmas

theorem upd_same {α : Type} (m : String → Option α) (k : String) (v : α) :
    upd m k v k = some v := by simp [upd]

theorem upd_ne {α : Type} (m : String → Option α) {k k' : String} (v : α)
    (h : k' ≠ k) : upd m k v k' = m k' := by simp [upd, h]

theorem del_same {α : Type} (m : String → Option α) (k : String) :
    del m k k = none := by simp [del]

theorem del_ne {α : Type} (m : String → Option α) {k k' : String}
    (h : k' ≠ k) : del m k k' = m k' := by simp [del, h]

theorem enqueue_rooms (toId : String) (m : SignalingMessage) (s : ServerState) :
    (enqueue toId m s).rooms = s.rooms := rfl

theorem enqueue_queues_same (toId : String) (m : SignalingMessage)
    (s : ServerState) :
    (enqueue toId m s).queues toId = some (((s.queues toId).getD []) ++ [m]) := by
  simp [enqueue, upd]

theorem enqueue_queues_ne (toId : String) (m : SignalingMessage)
    (s : ServerState) {q : String} (h : q ≠ toId) :
    (enqueue toId m s).queues q = s.queues q := by
  simp [enqueue, upd, h]

theorem ensureQueue_rooms (p : String) (s : ServerState) :
    (ensureQueue p s).rooms = s.rooms := by
  unfold ensureQueue
  cases s.queues p <;> rfl

theorem ensureQueue_getD (p q : String) (s : ServerState) :
    ((ensureQueue p s).queues q).getD [] = (s.queues q).getD [] := by
  unfold ensureQueue
  cases h : s.queues p with
  | none =>
      by_cases hq : q = p
      · subst hq; simp [upd, h]
      · simp [upd, hq]
  | some l => rfl

theorem ensureQueue_queues_ne (p : String) (s : ServerState) {q : String}
    (h : q ≠ p) : (ensureQueue p s).queues q = s.queues q := by
  unfold ensureQueue
  cases s.queues p with
  | none => simp [upd, h]
  | some l => rfl

/-- Effect of a `forEach`-style notification loop on any queue: queue `q`
gains one copy of `msg` per occurrence of `q` in the notified list. -/
theorem foldl_enqueue_getD (msg : SignalingMessage) :
    ∀ (l : List String) (s : ServerState) (q : String),
      (((l.foldl (fun st o => enqueue o msg st) s)).queues q).getD []
        = ((s.queues q).getD []) ++ List.replicate (l.count q) msg := by
  intro l
  induction l with
  | nil => intro s q; simp
  | cons o t ih =>
      intro s q
      simp only [List.foldl_cons]
      rw [ih]
      by_cases h : o = q
      · subst h
        rw [enqueue_queues_same]
        simp [List.count_cons, List.replicate_succ]
      · rw [enqueue_queues_ne _ _ _ (Ne.symm h)]
        simp [List.count_cons, h]

theorem foldl_enqueue_rooms (msg : SignalingMessage) :
    ∀ (l : List String) (s : ServerState),
      (l.foldl (fun st o => enqueue o msg st) s).rooms = s.rooms := by
  intro l
  induction l with
  | nil => intro s; rfl
  | cons o t ih => intro s; simp only [List.foldl_cons]; rw [ih]; rfl

/-- Effect of a batch of sends on any queue: queue `q` gains exactly the
messages targeted at `q`, in order. -/
theorem applyEnqueues_getD :
    ∀ (l : List (String × SignalingMessage)) (s : ServerState) (q : String),
      ((applyEnqueues l s).queues q).getD []
        = ((s.queues q).getD [])
          ++ (l.filter (fun x => x.1 == q)).map Prod.snd := by
  intro l
  induction l with
  | nil => intro s q; simp [applyEnqueues]
  | cons x t ih =>
      intro s q
      simp only [applyEnqueues, List.foldl_cons] at *
      rw [ih]
      by_cases h : x.1 = q
      · subst h
        rw [enqueue_queues_same]
        simp
      · rw [enqueue_queues_ne _ _ _ (Ne.symm h)]
        simp [List.filter_cons, h]

end BasicLemmas

/-! ## Room-membership traces

For the registry invariant we run an arbitrary sequence of successful
`join`/`leave` operations from the initial state and compare the resulting
member sequences with a reference membership predicate computed directly
from the event list. -/

/-- One successful room operation, as accepted by `/join` or `/leave`. -/
inductive RoomEvent where
  | joinEv (roomId peerId : String)
  | leaveEv (roomId peerId : String)
deriving DecidableEq, Repr

/-- The identifiers of an event are non-empty, i.e. the corresponding
request passes the handlers' field checks and succeeds. -/
def RoomEvent.valid : RoomEvent → Bool
  | .joinEv r p => !(r == "") && !(p == "")
  | .leaveEv r p => !(r == "") && !(p == "")

/-- State transition of one successful room operation. -/
def stepEvent (s : ServerState) (e : RoomEvent) : ServerState :=
  match e with
  | .joinEv r p => (joinOp r p s).2
  | .leaveEv r p => leaveOp r p s

/-- Run a sequence of successful room operations from a fresh server. -/
def runEvents (l : List RoomEvent) : ServerState :=
  l.foldl stepEvent initialState

/-- Reference membership, read off the event list alone: a peer is a member
after an event list iff its last join/leave event for that room is a join. -/
def specMemStep (f : String → String → Bool) (e : RoomEvent) :
    String → String → Bool :=
  match e with
  | .joinEv r p => fun r' p' => if r' = r ∧ p' = p then true else f r' p'
  | .leaveEv r p => fun r' p' => if r' = r ∧ p' = p then false else f r' p'

/-- Reference membership after a whole event list, starting from no one
being a member of any room. -/
def specMem (l : List RoomEvent) : String → String → Bool :=
  l.foldl specMemStep (fun _ _ => false)

/-! ## Client-side model (`public/script.js`)

Tracks are identified by natural numbers; a stream is the list of its
tracks; an `RTCPeerConnection` is modelled by the outgoing tracks its
senders currently hold together with the ICE candidates added to it.  The
`stopped` list records every track object on which `.stop()` has been
called (stopping is permanent for a `MediaStreamTrack`). -/

/-- Model of one `RTCPeerConnection` entry of the client's `peers` map. -/
structure Conn where
  tracks : List Nat
  candidates : List String
deriving DecidableEq, Repr

/-- Model of the client's global mutable state in `script.js`. -/
structure ClientState where
  localTracks : List Nat
  screenTracks : Option (List Nat)
  currentTracks : List Nat
  peers : List (String × Conn)
  stopped : List Nat
  shareBtnLabel : String
deriving DecidableEq, Repr

/-- Function `replaceTracks(stream)`: for every connection of `peers`, stop each
sender's current track and remove the sender, then add every track of
`stream`.  In the model: all previously attached tracks join `stopped`, and
every connection's track list becomes `stream`. -/
def replaceTracks (stream : List Nat) (s : ClientState) : ClientState :=
  { s with
    peers := s.peers.map (fun pc => (pc.1, { pc.2 with tracks := stream })),
    stopped := s.stopped ++ (s.peers.map (fun pc => pc.2.tracks)).flatten }

/-- Function `stopScreenShare()`: if a screen stream is active, stop its tracks,
drop it, make the camera stream current again, re-attach the camera tracks
to every connection via `replaceTracks`, and reset the button label. -/
def stopScreenShare (s : ClientState) : ClientState :=
  match s.screenTracks with
  | none => s
  | some scr =>
      let s1 : ClientState :=
        { s with stopped := s.stopped ++ scr, screenTracks := none,
                 currentTracks := s.localTracks }
      let s2 := replaceTracks s1.localTracks s1
      { s2 with shareBtnLabel := "Toggle Screen Share" }

/-- Function `toggleScreenShare()`: when no screen stream is active, request one —
`acquired` is the outcome of `getDisplayMedia` (`none` = the promise
rejected, landing in the `catch` branch that only logs).  On success the
screen stream becomes current, is propagated by `replaceTracks`, and the
button label changes.  When a screen stream is active, fall through to
`stopScreenShare`. -/
def toggleScreenShare (acquired : Option (List Nat)) (s : ClientState) :
    ClientState :=
  match s.screenTracks with
  | none =>
      match acquired with
      | none => s
      | some scr =>
          let s1 : ClientState :=
            { s with screenTracks := some scr, currentTracks := scr }
          let s2 := replaceTracks scr s1
          { s2 with shareBtnLabel := "Stop Screen Share" }
  | some _ => stopScreenShare s

/-- Function `addIceCandidate(remotePeerId, candidate)`: look the remote peer up in
`peers`; if a connection exists, add the candidate to it, otherwise do
nothing (the candidate is dropped without an error). -/
def addIceCandidate (remotePeerId : String) (cand : String)
    (s : ClientState) : ClientState :=
  match List.lookup remotePeerId s.peers with
  | none => s
  | some _ =>
      { s with
        peers := s.peers.map (fun pc =>
          if pc.1 = remotePeerId then
            (pc.1, { pc.2 with candidates := pc.2.candidates ++ [cand] })
          else pc) }

/-! ## The spec's notion of a missing request field

Modelled from the spec: §7 requires an `InvalidRequest` failure when a
"required field" is "missing", and §4.1 spells out that an *empty*
identifier counts as missing ("Fails with `InvalidRequest` if either
identifier is empty").  So on the spec's reading a field is missing when it
is absent from the JSON body or is the empty string. -/
def missingField (o : Option String) : Bool :=
  match o with
  | none => true
  | some v => v == ""

/-! ## Concrete states used by the witness theorems -/

/-- A server with peer `A` holding one queued message and nothing else. -/
def sPoll : ServerState :=
  { rooms := fun _ => none,
    queues := fun q =>
      if q = "A" then some [⟨"offer", "B", some "sdp0"⟩] else none }

/-- A batch of send effects: two messages for `A` around one for `C`. -/
def sendBatch : List (String × SignalingMessage) :=
  [("A", ⟨"offer", "B", some "o1"⟩),
   ("C", ⟨"answer", "B", none⟩),
   ("A", ⟨"ice-candidate", "B", some "c1"⟩)]

/-- A server whose room `room1` has members `A` and `B`, with no queues. -/
def sAB : ServerState :=
  { rooms := fun r => if r = "room1" then some ["A", "B"] else none,
    queues := fun _ => none }

/-! ## Claim theorems: the signalling relay -/

/-- C1: for every peer identifier, a poll returns exactly the messages
enqueued for that peer since the previous poll (here: the queue snapshot,
and — after a poll followed by any batch of sends — exactly the messages of
the batch targeted at the peer, in order, each once), and leaves the peer's
queue empty immediately afterwards; polling a peer with no queue creates an
empty queue and returns an empty list. -/
theorem poll_drains_queue_exactly (s : ServerState) (p : String)
    (l : List (String × SignalingMessage)) (hp : p ≠ "") :
    pollE p s = .ok (pollOp p s) ∧
    (pollOp p s).1 = (s.queues p).getD [] ∧
    (pollOp p s).2.queues p = some [] ∧
    (s.queues p = none → (pollOp p s).1 = []) ∧
    (pollOp p (applyEnqueues l (pollOp p s).2)).1
      = (l.filter (fun x => x.1 == p)).map Prod.snd := by
  have hfst : ∀ t : ServerState, (pollOp p t).1 = (t.queues p).getD [] := by
    intro t
    simp only [pollOp]
    rw [ensureQueue_getD]
  have hcleared : (pollOp p s).2.queues p = some [] := by
    simp only [pollOp]
    exact upd_same _ _ _
  refine ⟨by simp [pollE, hp], hfst s, hcleared, ?_, ?_⟩
  · intro hnone
    rw [hfst s, hnone]
    rfl
  · rw [hfst _, applyEnqueues_getD, hcleared]
    rfl

/-- C1 witness: concrete run on `sPoll` with the batch `sendBatch`. -/
theorem poll_drains_queue_exactly_witness :
    ("A" : String) ≠ "" ∧
    (pollE "A" sPoll = .ok (pollOp "A" sPoll) ∧
     (pollOp "A" sPoll).1 = (sPoll.queues "A").getD [] ∧
     (pollOp "A" sPoll).2.queues "A" = some [] ∧
     (sPoll.queues "A" = none → (pollOp "A" sPoll).1 = []) ∧
     (pollOp "A" (applyEnqueues sendBatch (pollOp "A" sPoll).2)).1
       = (sendBatch.filter (fun x => x.1 == "A")).map Prod.snd) :=
  ⟨by decide, poll_drains_queue_exactly sPoll "A" sendBatch (by decide)⟩

/-- C2: a successful `join` returns the member sequence with every
occurrence of `peerId` removed, appends `peerId` to the member sequence
(creating the room when absent), and enqueues one
`{type: peer-connected, from: peerId}` message into the queue of each
member listed in `existingPeers` (one copy per listed occurrence; peers not
listed, `peerId` included, gain none since their count is zero). -/
theorem join_notifies_existing_peers (s : ServerState) (roomId peerId : String)
    (hr : roomId ≠ "") (hp : peerId ≠ "") :
    joinE roomId peerId s = .ok (joinOp roomId peerId s) ∧
    (joinOp roomId peerId s).1
      = ((s.rooms roomId).getD []).filter (fun q => q != peerId) ∧
    (joinOp roomId peerId s).2.rooms roomId
      = some (((s.rooms roomId).getD []) ++ [peerId]) ∧
    (s.rooms roomId = none →
      (joinOp roomId peerId s).2.rooms roomId = some [peerId]) ∧
    (∀ q, ((joinOp roomId peerId s).2.queues q).getD []
      = ((s.queues q).getD [])
        ++ List.replicate ((joinOp roomId peerId s).1.count q)
             ⟨"peer-connected", peerId, none⟩) := by
  have hfst : (joinOp roomId peerId s).1
      = ((s.rooms roomId).getD []).filter (fun q => q != peerId) := rfl
  have hrooms : (joinOp roomId peerId s).2.rooms
      = upd s.rooms roomId (((s.rooms roomId).getD []) ++ [peerId]) := by
    simp only [joinOp]
    rw [foldl_enqueue_rooms, ensureQueue_rooms]
  refine ⟨by simp [joinE, hr, hp], hfst, ?_, ?_, ?_⟩
  · rw [hrooms, upd_same]
  · intro hnone
    rw [hrooms, upd_same, hnone]
    rfl
  · intro q
    conv_lhs => simp only [joinOp]
    rw [foldl_enqueue_getD, ensureQueue_getD, hfst]

/-- C2 witness: peer `C` joins `room1` whose members are `A` and `B`. -/
theorem join_notifies_existing_peers_witness :
    (("room1" : String) ≠ "" ∧ ("C" : String) ≠ "") ∧
    (joinE "room1" "C" sAB = .ok (joinOp "room1" "C" sAB) ∧
     (joinOp "room1" "C" sAB).1
       = ((sAB.rooms "room1").getD []).filter (fun q => q != "C") ∧
     (joinOp "room1" "C" sAB).2.rooms "room1"
       = some (((sAB.rooms "room1").getD []) ++ ["C"]) ∧
     (sAB.rooms "room1" = none →
       (joinOp "room1" "C" sAB).2.rooms "room1" = some ["C"]) ∧
     (∀ q, ((joinOp "room1" "C" sAB).2.queues q).getD []
       = ((sAB.queues q).getD [])
         ++ List.replicate ((joinOp "room1" "C" sAB).1.count q)
              ⟨"peer-connected", "C", none⟩)) :=
  ⟨by decide,
   join_notifies_existing_peers sAB "room1" "C" (by decide) (by decide)⟩

/-- C3: a successful `leave` removes every occurrence of `peerId` from the
room (a no-op when the room is absent), enqueues one
`{type: peer-disconnected, from: peerId}` message per remaining occurrence
of each member, deletes the room when its member sequence becomes empty,
leaves other rooms untouched, and unconditionally discards `peerId`'s own
message queue. -/
theorem leave_removes_and_notifies (s : ServerState) (roomId peerId : String)
    (hr : roomId ≠ "") (hp : peerId ≠ "") :
    leaveE roomId peerId s = .ok (leaveOp roomId peerId s) ∧
    (leaveOp roomId peerId s).rooms roomId
      = (if (((s.rooms roomId).getD []).filter (fun q => q != peerId)).isEmpty
         then none
         else some (((s.rooms roomId).getD []).filter (fun q => q != peerId))) ∧
    (∀ r, r ≠ roomId → (leaveOp roomId peerId s).rooms r = s.rooms r) ∧
    (leaveOp roomId peerId s).queues peerId = none ∧
    (∀ q, q ≠ peerId →
      ((leaveOp roomId peerId s).queues q).getD []
        = ((s.queues q).getD [])
          ++ List.replicate
              ((((s.rooms roomId).getD []).filter (fun q' => q' != peerId)).count q)
              ⟨"peer-disconnected", peerId, none⟩) := by
  refine ⟨by simp [leaveE, hr, hp], ?_, ?_, ?_, ?_⟩
  · simp only [leaveOp]
    cases hm : s.rooms roomId with
    | none =>
        simp [hm]
    | some ms =>
        by_cases he : (ms.filter (fun q => q != peerId)).isEmpty
        · simp only [Option.getD_some, he, if_true]
          rw [del_same]
        · simp only [Option.getD_some, he, if_false, Bool.false_eq_true]
          rw [foldl_enqueue_rooms]
          exact upd_same _ _ _
  · intro r hne
    simp only [leaveOp]
    cases hm : s.rooms roomId with
    | none => rfl
    | some ms =>
        by_cases he : (ms.filter (fun q => q != peerId)).isEmpty
        · simp only [he, if_true]
          rw [del_ne _ hne, foldl_enqueue_rooms]
          exact upd_ne _ _ hne
        · simp only [he, if_false, Bool.false_eq_true]
          rw [foldl_enqueue_rooms]
          exact upd_ne _ _ hne
  · simp only [leaveOp]
    cases hm : s.rooms roomId with
    | none => exact del_same _ _
    | some ms =>
        by_cases he : (ms.filter (fun q => q != peerId)).isEmpty
        · simp only [he, if_true]
          exact del_same _ _
        · simp only [he, if_false, Bool.false_eq_true]
          exact del_same _ _
  · intro q hq
    simp only [leaveOp]
    cases hm : s.rooms roomId with
    | none =>
        rw [del_ne _ hq]
        simp [hm]
    | some ms =>
        by_cases he : (ms.filter (fun q => q != peerId)).isEmpty
        · simp only [Option.getD_some, he, if_true]
          rw [del_ne _ hq]
          rw [foldl_enqueue_getD]
        · simp only [Option.getD_some, he, if_false, Bool.false_eq_true]
          rw [del_ne _ hq]
          rw [foldl_enqueue_getD]

/-- C3 witness: `A` leaves `room1` whose members are `A` and `B`. -/
theorem leave_removes_and_notifies_witness :
    (("room1" : String) ≠ "" ∧ ("A" : String) ≠ "") ∧
    (leaveE "room1" "A" sAB = .ok (leaveOp "room1" "A" sAB) ∧
     (leaveOp "room1" "A" sAB).rooms "room1"
       = (if (((sAB.rooms "room1").getD []).filter (fun q => q != "A")).isEmpty
          then none
          else some (((sAB.rooms "room1").getD []).filter (fun q => q != "A"))) ∧
     (∀ r, r ≠ "room1" → (leaveOp "room1" "A" sAB).rooms r = sAB.rooms r) ∧
     (leaveOp "room1" "A" sAB).queues "A" = none ∧
     (∀ q, q ≠ "A" →
       ((leaveOp "room1" "A" sAB).queues q).getD []
         = ((sAB.queues q).getD [])
           ++ List.replicate
               ((((sAB.rooms "room1").getD []).filter (fun q' => q' != "A")).count q)
               ⟨"peer-disconnected", "A", none⟩)) :=
  ⟨by decide,
   leave_removes_and_notifies sAB "room1" "A" (by decide) (by decide)⟩

/-! ## Registry invariant machinery (claim C4) -/

/-- The registry never records a room with an empty member sequence. -/
def NoEmptyRoom (s : ServerState) : Prop :=
  ∀ r, s.rooms r ≠ some []

/-- The registry's member sequences agree, as sets, with a reference
membership predicate. -/
def RoomsMatch (s : ServerState) (f : String → String → Bool) : Prop :=
  ∀ r p, p ∈ (s.rooms r).getD [] ↔ f r p = true

theorem joinOp_rooms_eq (r p : String) (s : ServerState) :
    (joinOp r p s).2.rooms = upd s.rooms r (((s.rooms r).getD []) ++ [p]) := by
  simp only [joinOp]
  rw [foldl_enqueue_rooms, ensureQueue_rooms]

theorem leaveOp_rooms_apply (r0 p0 : String) (s : ServerState) (r : String) :
    (leaveOp r0 p0 s).rooms r
      = if r = r0 then
          (if (((s.rooms r0).getD []).filter (fun q => q != p0)).isEmpty
           then none
           else some (((s.rooms r0).getD []).filter (fun q => q != p0)))
        else s.rooms r := by
  simp only [leaveOp]
  cases hm : s.rooms r0 with
  | none =>
      by_cases hr : r = r0
      · subst hr; simp [hm]
      · simp [hm, hr]
  | some ms =>
      by_cases he : (ms.filter (fun q => q != p0)).isEmpty
      · simp only [he, if_true, Option.getD_some]
        by_cases hr : r = r0
        · subst hr
          rw [del_same]
          simp [he]
        · rw [del_ne _ hr, foldl_enqueue_rooms]
          dsimp only
          rw [upd_ne _ _ hr]
          simp [hr]
      · simp only [he, if_false, Bool.false_eq_true, Option.getD_some]
        rw [foldl_enqueue_rooms]
        dsimp only
        by_cases hr : r = r0
        · subst hr
          rw [upd_same]
          simp [he]
        · rw [upd_ne _ _ hr]
          simp [hr]

theorem stepEvent_roomsMatch {s : ServerState} {f : String → String → Bool}
    (e : RoomEvent) (h1 : RoomsMatch s f) :
    RoomsMatch (stepEvent s e) (specMemStep f e) := by
  cases e with
  | joinEv r0 p0 =>
      intro r p
      simp only [stepEvent, specMemStep]
      rw [joinOp_rooms_eq]
      by_cases hr : r = r0
      · subst hr
        rw [upd_same]
        by_cases hp : p = p0
        · rw [if_pos ⟨rfl, hp⟩]
          simp [hp]
        · rw [if_neg (fun h => hp h.2)]
          simp only [Option.getD_some, List.mem_append, List.mem_singleton,
            hp, or_false]
          exact h1 r p
      · rw [upd_ne _ _ hr, if_neg (fun h => hr h.1)]
        exact h1 r p
  | leaveEv r0 p0 =>
      intro r p
      simp only [stepEvent, specMemStep]
      rw [leaveOp_rooms_apply]
      by_cases hr : r = r0
      · subst hr
        rw [if_pos rfl]
        by_cases he : ((((s.rooms r).getD []).filter (fun q => q != p0)).isEmpty)
        · rw [if_pos he]
          have hrem : ((s.rooms r).getD []).filter (fun q => q != p0) = [] :=
            List.isEmpty_iff.mp he
          by_cases hp : p = p0
          · rw [if_pos ⟨rfl, hp⟩]
            simp
          · rw [if_neg (fun h => hp h.2)]
            have hnotin : p ∉ (s.rooms r).getD [] := by
              intro hin
              have hmem : p ∈ ((s.rooms r).getD []).filter (fun q => q != p0) := by
                rw [List.mem_filter]
                exact ⟨hin, by simpa using hp⟩
              rw [hrem] at hmem
              exact absurd hmem (List.not_mem_nil p)
            constructor
            · intro h; exact absurd h (by simp)
            · intro h
              exact absurd ((h1 r p).mpr h) hnotin
        · rw [if_neg he]
          simp only [Option.getD_some]
          rw [List.mem_filter]
          by_cases hp : p = p0
          · subst hp
            simp
          · rw [if_neg (fun h => hp h.2)]
            rw [← h1 r p]
            simp [hp]
      · rw [if_neg hr, if_neg (fun h => hr h.1)]
        exact h1 r p

theorem stepEvent_noEmptyRoom {s : ServerState} (e : RoomEvent)
    (h2 : NoEmptyRoom s) : NoEmptyRoom (stepEvent s e) := by
  cases e with
  | joinEv r0 p0 =>
      intro r
      simp only [stepEvent]
      rw [joinOp_rooms_eq]
      by_cases hr : r = r0
      · subst hr
        rw [upd_same]
        simp
      · rw [upd_ne _ _ hr]
        exact h2 r
  | leaveEv r0 p0 =>
      intro r
      simp only [stepEvent]
      rw [leaveOp_rooms_apply]
      by_cases hr : r = r0
      · rw [if_pos hr]
        by_cases he : ((((s.rooms r0).getD []).filter (fun q => q != p0)).isEmpty)
        · rw [if_pos he]
          simp
        · rw [if_neg he]
          intro hcontra
          apply he
          rw [Option.some.injEq] at hcontra
          rw [hcontra]
          rfl
      · rw [if_neg hr]
        exact h2 r

theorem runEvents_aux :
    ∀ (l : List RoomEvent) (s : ServerState) (f : String → String → Bool),
      RoomsMatch s f → NoEmptyRoom s →
      RoomsMatch (l.foldl stepEvent s) (l.foldl specMemStep f) ∧
      NoEmptyRoom (l.foldl stepEvent s) := by
  intro l
  induction l with
  | nil => intro s f h1 h2; exact ⟨h1, h2⟩
  | cons e t ih =>
      intro s f h1 h2
      simp only [List.foldl_cons]
      exact ih _ _ (stepEvent_roomsMatch e h1) (stepEvent_noEmptyRoom e h2)

/-- C4: after any sequence of successful join/leave operations, a peer is
in a room's member sequence exactly when its last join/leave event for that
room was a join (the room's member set is exactly the peers that joined
and have not since left), and a room object exists in the registry exactly
when its member sequence is non-empty. -/
theorem room_registry_invariant (l : List RoomEvent)
    (hval : ∀ e ∈ l, e.valid = true) (r : String) (p : String) :
    (p ∈ ((runEvents l).rooms r).getD [] ↔ specMem l r p = true) ∧
    ((runEvents l).rooms r ≠ none ↔ ((runEvents l).rooms r).getD [] ≠ []) := by
  have h0 : RoomsMatch initialState (fun _ _ => false) := by
    intro r' p'
    simp [initialState]
  have h2 : NoEmptyRoom initialState := by
    intro r'
    simp [initialState]
  obtain ⟨hmatch, hnoempty⟩ := runEvents_aux l initialState _ h0 h2
  have hmatch' : RoomsMatch (runEvents l) (specMem l) := hmatch
  have hnoempty' : NoEmptyRoom (runEvents l) := hnoempty
  refine ⟨hmatch' r p, ?_, ?_⟩
  · intro hne
    cases hm : (runEvents l).rooms r with
    | none => exact absurd hm hne
    | some ms =>
        have hms : ms ≠ [] := by
          intro hnil
          exact hnoempty' r (by rw [hm, hnil])
        simpa [hm] using hms
  · intro hne hnone
    rw [hnone] at hne
    exact hne rfl

/-- The event trace used by the C4 witness: `A` and `B` join `room1`, then
`A` leaves. -/
def evTrace : List RoomEvent :=
  [.joinEv "room1" "A", .joinEv "room1" "B", .leaveEv "room1" "A"]

/-- C4 witness: concrete trace, room `room1`, peer `A`. -/
theorem room_registry_invariant_witness :
    (∀ e ∈ evTrace, e.valid = true) ∧
    ((("A" : String) ∈ ((runEvents evTrace).rooms "room1").getD []
        ↔ specMem evTrace "room1" "A" = true) ∧
     ((runEvents evTrace).rooms "room1" ≠ none
        ↔ ((runEvents evTrace).rooms "room1").getD [] ≠ [])) :=
  ⟨by decide, room_registry_invariant evTrace (by decide) "room1" "A"⟩

/-! ## Claim C5: `/send` field validation -/

/-- Whether a handler answered with a 400-style error response. -/
def isErr {ε α : Type} : Except ε α → Bool
  | .error _ => true
  | .ok _ => false

/-- C5 counterexample: with `to = "A"`, `type = "offer"` and `from = ""`
(present but empty, hence missing on the spec's reading of §4.1/§7), the
request *succeeds*, so the request does not fail exactly when a required
field is missing: the `from == null` guard lets an empty `from` through. -/
theorem send_empty_from_counterexample :
    ¬ ((isErr (sendE (some "A") (some "offer") (some "payload") (some "")
          initialState) = true)
        ↔ (missingField (some "A") || missingField (some "offer")
            || missingField (some "")) = true) := by
  decide

/-- C5 (amended): `sendE` appends `{type, from, payload}` to `to`'s queue,
creating it if absent, with no validation of `type` beyond non-emptiness
of the field, and fails with an `InvalidRequest` error exactly when `to` or
`type` is missing (absent or empty) or `from` is *absent*; an
empty-string `from` is accepted and stored. -/
theorem send_validation_amended (toF ty data fromF : Option String)
    (s : ServerState) :
    (isErr (sendE toF ty data fromF s) = true
       ↔ (missingField toF = true ∨ missingField ty = true ∨ fromF = none)) ∧
    (∀ t y f, toF = some t → ty = some y → fromF = some f →
       t ≠ "" → y ≠ "" →
       sendE toF ty data fromF s = .ok (enqueue t ⟨y, f, data⟩ s) ∧
       (enqueue t ⟨y, f, data⟩ s).queues t
         = some (((s.queues t).getD []) ++ [⟨y, f, data⟩]) ∧
       (∀ q, q ≠ t → (enqueue t ⟨y, f, data⟩ s).queues q = s.queues q)) := by
  constructor
  · cases toF with
    | none => simp [sendE, missingField, isErr]
    | some t =>
        cases ty with
        | none => simp [sendE, missingField, isErr]
        | some y =>
            cases fromF with
            | none => simp [sendE, missingField, isErr]
            | some f =>
                by_cases ht : t = ""
                · simp [sendE, missingField, isErr, ht]
                · by_cases hy : y = ""
                  · simp [sendE, missingField, isErr, ht, hy]
                  · simp [sendE, missingField, isErr, ht, hy]
  · intro t y f h1 h2 h3 ht hy
    subst h1; subst h2; subst h3
    refine ⟨by simp [sendE, ht, hy], enqueue_queues_same _ _ _, ?_⟩
    intro q hq
    exact enqueue_queues_ne _ _ _ hq

/-- C5 witness: a successful send from `A` to `B` on a fresh server. -/
theorem send_validation_amended_witness :
    (("B" : String) ≠ "" ∧ ("offer" : String) ≠ "") ∧
    (sendE (some "B") (some "offer") (some "sdp1") (some "A") initialState
       = .ok (enqueue "B" ⟨"offer", "A", some "sdp1"⟩ initialState) ∧
     (enqueue "B" ⟨"offer", "A", some "sdp1"⟩ initialState).queues "B"
       = some (((initialState.queues "B").getD [])
           ++ [⟨"offer", "A", some "sdp1"⟩]) ∧
     (∀ q, q ≠ "B" →
       (enqueue "B" ⟨"offer", "A", some "sdp1"⟩ initialState).queues q
         = initialState.queues q)) :=
  ⟨⟨by decide, by decide⟩,
   (send_validation_amended (some "B") (some "offer") (some "sdp1") (some "A")
      initialState).2 "B" "offer" "A" rfl rfl rfl (by decide) (by decide)⟩

/-! ## Claim C9: duplicate joins and all-occurrence removal -/

/-- Queue effect of `joinOp` alone: queue `q` gains one `peer-connected`
notification per occurrence of `q` in the returned `existingPeers`. -/
theorem joinOp_queues_getD (roomId peerId : String) (s : ServerState)
    (q : String) :
    ((joinOp roomId peerId s).2.queues q).getD []
      = ((s.queues q).getD [])
        ++ List.replicate ((joinOp roomId peerId s).1.count q)
             ⟨"peer-connected", peerId, none⟩ := by
  conv_lhs => simp only [joinOp]
  rw [foldl_enqueue_getD, ensureQueue_getD]
  rfl

/-- C9: `join` appends `peerId` even when it is already a member, so a
duplicate join makes it occur at least twice; a later join by a fresh peer
`q` then enqueues one `peer-connected` notification into `p`'s queue per
occurrence of `p` in the member sequence; and a single `leave` removes
every occurrence, so after any leave `p` does not occur in the room's
member sequence. -/
theorem duplicate_join_and_leave_all (s : ServerState) (roomId p q : String)
    (hr : roomId ≠ "") (hp : p ≠ "") (hq : q ≠ "") (hpq : p ≠ q)
    (hmem : p ∈ (s.rooms roomId).getD []) :
    ((joinOp roomId p s).2.rooms roomId
       = some (((s.rooms roomId).getD []) ++ [p])) ∧
    (2 ≤ ((((s.rooms roomId).getD []) ++ [p]).count p)) ∧
    (((joinOp roomId q ((joinOp roomId p s).2)).2.queues p).getD []
       = ((((joinOp roomId p s).2.queues p).getD [])
          ++ List.replicate ((((s.rooms roomId).getD []) ++ [p]).count p)
               ⟨"peer-connected", q, none⟩)) ∧
    (∀ t : ServerState, p ∉ ((leaveOp roomId p t).rooms roomId).getD []) := by
  have hrooms1 : (joinOp roomId p s).2.rooms roomId
      = some (((s.rooms roomId).getD []) ++ [p]) := by
    rw [joinOp_rooms_eq, upd_same]
  refine ⟨hrooms1, ?_, ?_, ?_⟩
  · have h1 : 1 ≤ ((s.rooms roomId).getD []).count p :=
      List.one_le_count_iff.mpr hmem
    rw [List.count_append]
    simpa using h1
  · rw [joinOp_queues_getD]
    have hfst : (joinOp roomId q ((joinOp roomId p s).2)).1
        = ((((joinOp roomId p s).2.rooms roomId).getD []).filter
            (fun x => x != q)) := rfl
    rw [hfst, hrooms1]
    simp only [Option.getD_some]
    rw [List.count_filter (by simpa using hpq)]
  · intro t
    rw [leaveOp_rooms_apply, if_pos rfl]
    by_cases he : ((((t.rooms roomId).getD []).filter (fun x => x != p)).isEmpty)
    · rw [if_pos he]
      simp
    · rw [if_neg he]
      simp only [Option.getD_some]
      intro hin
      rw [List.mem_filter] at hin
      simpa using hin.2

/-- C9 witness: `A` joins `room1` again (members `A`,`B`), `C` joins, `A`
leaves. -/
theorem duplicate_join_and_leave_all_witness :
    (("room1" : String) ≠ "" ∧ ("A" : String) ≠ "" ∧ ("C" : String) ≠ ""
      ∧ ("A" : String) ≠ "C"
      ∧ ("A" : String) ∈ (sAB.rooms "room1").getD []) ∧
    (((joinOp "room1" "A" sAB).2.rooms "room1"
       = some (((sAB.rooms "room1").getD []) ++ ["A"])) ∧
     (2 ≤ ((((sAB.rooms "room1").getD []) ++ ["A"]).count "A")) ∧
     (((joinOp "room1" "C" ((joinOp "room1" "A" sAB).2)).2.queues "A").getD []
       = ((((joinOp "room1" "A" sAB).2.queues "A").getD [])
          ++ List.replicate ((((sAB.rooms "room1").getD []) ++ ["A"]).count "A")
               ⟨"peer-connected", "C", none⟩)) ∧
     (∀ t : ServerState, "A" ∉ ((leaveOp "room1" "A" t).rooms "room1").getD [])) :=
  ⟨⟨by decide, by decide, by decide, by decide, by decide⟩,
   duplicate_join_and_leave_all sAB "room1" "A" "C" (by decide) (by decide)
     (by decide) (by decide) (by decide)⟩

/-! ## Client-side claims -/

/-- Closed form of a successful screen-share activation. -/
theorem toggleOn_state (s : ClientState) (scr : List Nat)
    (hoff : s.screenTracks = none) :
    toggleScreenShare (some scr) s
      = { localTracks := s.localTracks, screenTracks := some scr,
          currentTracks := scr,
          peers := s.peers.map (fun pc => (pc.1, { pc.2 with tracks := scr })),
          stopped := s.stopped ++ (s.peers.map (fun pc => pc.2.tracks)).flatten,
          shareBtnLabel := "Stop Screen Share" } := by
  simp [toggleScreenShare, hoff, replaceTracks]

/-- Closed form of a screen-share deactivation. -/
theorem toggleOff_state (s : ClientState) (scr : List Nat)
    (hon : s.screenTracks = some scr) :
    toggleScreenShare none s
      = { localTracks := s.localTracks, screenTracks := none,
          currentTracks := s.localTracks,
          peers := s.peers.map
            (fun pc => (pc.1, { pc.2 with tracks := s.localTracks })),
          stopped := (s.stopped ++ scr)
            ++ (s.peers.map (fun pc => pc.2.tracks)).flatten,
          shareBtnLabel := "Toggle Screen Share" } := by
  simp [toggleScreenShare, stopScreenShare, hon, replaceTracks]

/-- C6: starting with screen share off and a live connection carrying the
camera source's tracks, toggling screen share on replaces them by the
screen tracks, and toggling it off again restores a track list of the same
length (indeed the camera track list itself) on that connection. -/
theorem screen_share_roundtrip_track_count (s : ClientState)
    (scr : List Nat) (pid : String) (c : Conn)
    (hoff : s.screenTracks = none)
    (hmem : (pid, c) ∈ s.peers)
    (hatt : c.tracks = s.localTracks) :
    ((pid, { c with tracks := scr }) ∈ (toggleScreenShare (some scr) s).peers) ∧
    ((pid, { c with tracks := s.localTracks }) ∈
       (toggleScreenShare none (toggleScreenShare (some scr) s)).peers) ∧
    ({ c with tracks := s.localTracks } : Conn).tracks.length
      = c.tracks.length := by
  have h1 := toggleOn_state s scr hoff
  have hon : (toggleScreenShare (some scr) s).screenTracks = some scr := by
    rw [h1]
  have h2 := toggleOff_state (toggleScreenShare (some scr) s) scr hon
  refine ⟨?_, ?_, ?_⟩
  · rw [h1]
    exact List.mem_map.mpr ⟨(pid, c), hmem, rfl⟩
  · rw [h2, h1]
    exact List.mem_map.mpr
      ⟨(pid, { c with tracks := scr }),
       List.mem_map.mpr ⟨(pid, c), hmem, rfl⟩, rfl⟩
  · simp [hatt]

/-- A concrete client used by the client-side witnesses: camera tracks 1
(audio) and 2 (video), one live connection to `B` carrying them. -/
def cState : ClientState :=
  { localTracks := [1, 2], screenTracks := none, currentTracks := [1, 2],
    peers := [("B", ⟨[1, 2], []⟩)], stopped := [],
    shareBtnLabel := "Toggle Screen Share" }

/-- C6 witness: round-trip through screen track 7 on `cState`. -/
theorem screen_share_roundtrip_track_count_witness :
    (cState.screenTracks = none
      ∧ (("B", (⟨[1, 2], []⟩ : Conn)) ∈ cState.peers)
      ∧ (⟨[1, 2], []⟩ : Conn).tracks = cState.localTracks) ∧
    ((("B", ({ tracks := [7], candidates := [] } : Conn))
        ∈ (toggleScreenShare (some [7]) cState).peers) ∧
     (("B", ({ tracks := cState.localTracks, candidates := [] } : Conn)) ∈
        (toggleScreenShare none (toggleScreenShare (some [7]) cState)).peers) ∧
     ({ tracks := cState.localTracks, candidates := [] } : Conn).tracks.length
        = (⟨[1, 2], []⟩ : Conn).tracks.length) :=
  ⟨⟨rfl, by decide, by decide⟩,
   screen_share_roundtrip_track_count cState [7] "B" ⟨[1, 2], []⟩ rfl
     (by decide) (by decide)⟩

/-- Lookup after updating every entry keyed `pid`: the first `pid` entry's
connection gains the candidate. -/
theorem lookup_map_addCand (pid : String) (cand : String) :
    ∀ (l : List (String × Conn)) (c : Conn), List.lookup pid l = some c →
      List.lookup pid (l.map (fun pc =>
          if pc.1 = pid then
            (pc.1, { pc.2 with candidates := pc.2.candidates ++ [cand] })
          else pc))
        = some { c with candidates := c.candidates ++ [cand] } := by
  intro l
  induction l with
  | nil => intro c h; simp [List.lookup] at h
  | cons hd tl ih =>
      obtain ⟨k, v⟩ := hd
      intro c h
      simp only [List.map_cons]
      by_cases hkp : k = pid
      · subst hkp
        rw [if_pos rfl]
        simp only [List.lookup, beq_self_eq_true] at h ⊢
        cases h
        rfl
      · rw [if_neg hkp]
        have hpk : (pid == k) = false := by
          simpa using fun hh => hkp hh.symm
        simp only [List.lookup, hpk] at h ⊢
        exact ih c h

/-- Lookup of a different key is unchanged by the candidate update. -/
theorem lookup_map_addCand_ne (pid cand q : String) (hq : q ≠ pid) :
    ∀ l : List (String × Conn),
      List.lookup q (l.map (fun pc =>
          if pc.1 = pid then
            (pc.1, { pc.2 with candidates := pc.2.candidates ++ [cand] })
          else pc))
        = List.lookup q l := by
  intro l
  induction l with
  | nil => rfl
  | cons hd tl ih =>
      obtain ⟨k, v⟩ := hd
      simp only [List.map_cons]
      by_cases hkp : k = pid
      · subst hkp
        rw [if_pos rfl]
        have hqk : (q == k) = false := by simpa using hq
        simp only [List.lookup, hqk]
        exact ih
      · rw [if_neg hkp]
        by_cases hqk : q = k
        · subst hqk
          simp [List.lookup]
        · have hqk' : (q == k) = false := by simpa using hqk
          simp only [List.lookup, hqk']
          exact ih

/-- C7: a received `ice-candidate` message adds the candidate to the
existing connection for the sending peer and changes nothing else; when no
connection exists for that peer, the whole client state is unchanged (the
candidate is silently dropped — no buffering, no error). -/
theorem ice_candidate_requires_connection (s : ClientState)
    (pid cand : String) :
    (List.lookup pid s.peers = none → addIceCandidate pid cand s = s) ∧
    (∀ c, List.lookup pid s.peers = some c →
       List.lookup pid (addIceCandidate pid cand s).peers
         = some { c with candidates := c.candidates ++ [cand] } ∧
       (∀ q, q ≠ pid →
         List.lookup q (addIceCandidate pid cand s).peers
           = List.lookup q s.peers) ∧
       (addIceCandidate pid cand s).localTracks = s.localTracks ∧
       (addIceCandidate pid cand s).screenTracks = s.screenTracks ∧
       (addIceCandidate pid cand s).currentTracks = s.currentTracks ∧
       (addIceCandidate pid cand s).stopped = s.stopped ∧
       (addIceCandidate pid cand s).shareBtnLabel = s.shareBtnLabel) := by
  constructor
  · intro h
    simp [addIceCandidate, h]
  · intro c h
    have hpeers : (addIceCandidate pid cand s).peers
        = s.peers.map (fun pc =>
            if pc.1 = pid then
              (pc.1, { pc.2 with candidates := pc.2.candidates ++ [cand] })
            else pc) := by
      simp [addIceCandidate, h]
    refine ⟨?_, ?_, ?_, ?_, ?_, ?_, ?_⟩
    · rw [hpeers]
      exact lookup_map_addCand pid cand s.peers c h
    · intro q hq
      rw [hpeers]
      exact lookup_map_addCand_ne pid cand q hq s.peers
    all_goals simp [addIceCandidate, h]

/-- C7 witness: candidate for peer `B` (connection exists) on `cState`. -/
theorem ice_candidate_requires_connection_witness :
    (List.lookup "B" cState.peers = some (⟨[1, 2], []⟩ : Conn)) ∧
    (List.lookup "B" (addIceCandidate "B" "cand0" cState).peers
       = some { tracks := [1, 2], candidates := [] ++ ["cand0"] } ∧
     (∀ q, q ≠ "B" →
       List.lookup q (addIceCandidate "B" "cand0" cState).peers
         = List.lookup q cState.peers) ∧
     (addIceCandidate "B" "cand0" cState).localTracks = cState.localTracks ∧
     (addIceCandidate "B" "cand0" cState).screenTracks = cState.screenTracks ∧
     (addIceCandidate "B" "cand0" cState).currentTracks
       = cState.currentTracks ∧
     (addIceCandidate "B" "cand0" cState).stopped = cState.stopped ∧
     (addIceCandidate "B" "cand0" cState).shareBtnLabel
       = cState.shareBtnLabel) :=
  ⟨by decide,
   (ice_candidate_requires_connection cState "B" "cand0").2
     ⟨[1, 2], []⟩ (by decide)⟩

/-- C8: when the screen-capture request is rejected (the `getDisplayMedia`
promise fails, landing in the `catch` that only logs), the toggle is a
no-op: current source, screen slot, every connection's tracks, and the
button label are all unchanged. -/
theorem screen_share_failure_preserves_state (s : ClientState)
    (hoff : s.screenTracks = none) :
    toggleScreenShare none s = s ∧
    (toggleScreenShare none s).currentTracks = s.currentTracks ∧
    (toggleScreenShare none s).screenTracks = s.screenTracks ∧
    (toggleScreenShare none s).peers = s.peers ∧
    (toggleScreenShare none s).shareBtnLabel = s.shareBtnLabel := by
  have h : toggleScreenShare none s = s := by
    simp [toggleScreenShare, hoff]
  exact ⟨h, by rw [h], by rw [h], by rw [h], by rw [h]⟩

/-- C8 witness: failed capture on `cState`. -/
theorem screen_share_failure_preserves_state_witness :
    cState.screenTracks = none ∧
    (toggleScreenShare none cState = cState ∧
     (toggleScreenShare none cState).currentTracks = cState.currentTracks ∧
     (toggleScreenShare none cState).screenTracks = cState.screenTracks ∧
     (toggleScreenShare none cState).peers = cState.peers ∧
     (toggleScreenShare none cState).shareBtnLabel = cState.shareBtnLabel) :=
  ⟨rfl, screen_share_failure_preserves_state cState rfl⟩

/-- C10: `replaceTracks` stops every currently attached outgoing track, so
toggling screen share on stops the attached camera/microphone tracks; they
are still stopped after toggling off, yet toggling off re-attaches exactly
those same track objects (the client keeps the same `localStream` and never
reacquires the camera). -/
theorem replace_tracks_stops_before_detach (s : ClientState)
    (scr : List Nat) (pid : String) (c : Conn)
    (hoff : s.screenTracks = none)
    (hmem : (pid, c) ∈ s.peers)
    (hatt : c.tracks = s.localTracks) :
    (∀ stream : List Nat, ∀ t ∈ c.tracks,
       t ∈ (replaceTracks stream s).stopped) ∧
    (∀ t ∈ s.localTracks, t ∈ (toggleScreenShare (some scr) s).stopped) ∧
    (∀ t ∈ s.localTracks,
       t ∈ (toggleScreenShare none (toggleScreenShare (some scr) s)).stopped) ∧
    ((toggleScreenShare none (toggleScreenShare (some scr) s)).localTracks
       = s.localTracks) ∧
    ((pid, { c with tracks := s.localTracks }) ∈
       (toggleScreenShare none (toggleScreenShare (some scr) s)).peers) := by
  have hflat : ∀ t ∈ c.tracks,
      t ∈ (s.peers.map (fun pc => pc.2.tracks)).flatten := by
    intro t ht
    exact List.mem_flatten.mpr
      ⟨c.tracks, List.mem_map.mpr ⟨(pid, c), hmem, rfl⟩, ht⟩
  have h1 := toggleOn_state s scr hoff
  have hon : (toggleScreenShare (some scr) s).screenTracks = some scr := by
    rw [h1]
  have h2 := toggleOff_state (toggleScreenShare (some scr) s) scr hon
  refine ⟨?_, ?_, ?_, ?_, ?_⟩
  · intro stream t ht
    simp only [replaceTracks, List.mem_append]
    exact Or.inr (hflat t ht)
  · intro t ht
    rw [h1]
    simp only [List.mem_append]
    exact Or.inr (hflat t (by rw [hatt]; exact ht))
  · intro t ht
    rw [h2, h1]
    simp only [List.mem_append]
    exact Or.inl (Or.inl (Or.inr (hflat t (by rw [hatt]; exact ht))))
  · rw [h2, h1]
  · rw [h2, h1]
    exact List.mem_map.mpr
      ⟨(pid, { c with tracks := scr }),
       List.mem_map.mpr ⟨(pid, c), hmem, rfl⟩, rfl⟩

/-- C10 witness: round-trip through screen track 7 on `cState`. -/
theorem replace_tracks_stops_before_detach_witness :
    (cState.screenTracks = none
      ∧ (("B", (⟨[1, 2], []⟩ : Conn)) ∈ cState.peers)
      ∧ (⟨[1, 2], []⟩ : Conn).tracks = cState.localTracks) ∧
    ((∀ stream : List Nat, ∀ t ∈ (⟨[1, 2], []⟩ : Conn).tracks,
        t ∈ (replaceTracks stream cState).stopped) ∧
     (∀ t ∈ cState.localTracks,
        t ∈ (toggleScreenShare (some [7]) cState).stopped) ∧
     (∀ t ∈ cState.localTracks,
        t ∈ (toggleScreenShare none
              (toggleScreenShare (some [7]) cState)).stopped) ∧
     ((toggleScreenShare none
         (toggleScreenShare (some [7]) cState)).localTracks
        = cState.localTracks) ∧
     (("B", ({ tracks := cState.localTracks, candidates := [] } : Conn)) ∈
        (toggleScreenShare none
          (toggleScreenShare (some [7]) cState)).peers)) :=
  ⟨⟨rfl, by decide, by decide⟩,
   replace_tracks_stops_before_detach cState [7] "B" ⟨[1, 2], []⟩ rfl
     (by decide) (by decide)⟩
